import Mathlib

/-!
Verification development for the cont-signal reactive engine
(`src/index.ts`).  The engine is shallowly embedded as a state machine:
nodes (inputs and derived signals) live in a map from numeric ids to
records, and the pull-based `value` getter, the input setter, and the
continuation produced by `makeCt` are translated into fuel-indexed
executable functions over that state.  User compute callbacks are
embedded as functions from the list of source values to a small action
language (`Act`) that can return a value, return a signal, perform a
non-reactive get/set, or throw.
-/

namespace CS

/-- Primitive JS values used by the library and its scenarios.  JS `===`
on these coincides with structural equality. -/
inductive V where
  | num : Int → V
  | str : String → V
  | bool : Bool → V
  | vnull : V
deriving DecidableEq

/-- A value as it flows through the engine: either a raw value or a
reference to a signal object (the `T | SignalImpl<T>` union in the
source).  JS `===` on signal objects is reference equality, which the
unique ids make structural here. -/
inductive W where
  | raw : V → W
  | sigRef : Nat → W
deriving DecidableEq

/-- Errors the engine can surface: the non-reactive-access error thrown
by `checkGlobalState`, and an exception thrown by a user compute body. -/
inductive Err where
  | nonReactive
  | userErr
deriving DecidableEq

/-- Embedded compute bodies: return a value, read a signal's `value`
(non-reactive inside a computation), write an input's `value`, or
throw. -/
inductive Act where
  | ret : W → Act
  | get : Nat → (W → Act) → Act
  | set : Nat → W → Act → Act
  | fail : Act

/-- A node is an input (`InputImpl`, holding its current `val`) or a
derived signal (`SignalImpl` built by `read`/`makeCt`, holding its
direct sources and compute function). -/
inductive Kind where
  | inp : W → Kind
  | der : List Nat → (List W → Act) → Kind

/-- One signal object.  Field for field the mutable state of
`SignalImpl` / `InputImpl`:  `dirty` is `state` (`DIRTY` = `true`),
`lastRead` is the map from source id to the version it was last seen
at, `cached` is `#cachedValue` (initially JS `null`), `inputs` is the
set of transitive input leaves, `readers` the weak back-references (an
input-only field in the source; kept here on every node, unused on
derived ones), `lastSignal` the signal returned by the previous
computation, if any.  `compCount` instruments how many times the user
compute function has been invoked (the `count++` pattern of the tests);
the engine itself never reads it. -/
structure Node where
  kind : Kind
  dirty : Bool
  version : Nat
  lastRead : List (Nat × Nat)
  cached : W
  inputs : List Nat
  readers : List Nat
  lastSignal : Option Nat
  compCount : Nat

/-- Node used for ids that were never allocated. -/
def defNode : Node :=
  { kind := .inp (.raw .vnull), dirty := false, version := 0, lastRead := []
    cached := .raw .vnull, inputs := [], readers := [], lastSignal := none
    compCount := 0 }

/-- Global engine state: the signal heap, the id counter (`COUNT`) and
the reentrancy flag (`globalState`; `true` = `COMPUTING`). -/
structure St where
  nodes : Nat → Node
  next : Nat
  globalState : Bool

def emptySt : St := { nodes := fun _ => defNode, next := 0, globalState := false }

def getN (st : St) (i : Nat) : Node := st.nodes i

def setN (st : St) (i : Nat) (n : Node) : St :=
  { st with nodes := fun j => if j = i then n else st.nodes j }

/-- Membership in a JS `Set` of node ids (modelled as a list). -/
def memL : List Nat → Nat → Bool
  | [], _ => false
  | x :: r, y => if x = y then true else memL r y

/-- `Set.add`: append if absent. -/
def addL (l : List Nat) (x : Nat) : List Nat := if memL l x then l else l ++ [x]

/-- `Set.delete`. -/
def removeL : List Nat → Nat → List Nat
  | [], _ => []
  | x :: r, y => if x = y then removeL r y else x :: removeL r y

/-- `new Set([...a, ...b])`: elements of `a` in order, then the new
elements of `b`. -/
def unionL (a b : List Nat) : List Nat := b.foldl addL a

/-- `Map.get` on the `lastRead` version map. -/
def lookupV : List (Nat × Nat) → Nat → Option Nat
  | [], _ => none
  | (k, v) :: r, n => if k = n then some v else lookupV r n

/-- `Map.set` on the `lastRead` version map. -/
def setV : List (Nat × Nat) → Nat → Nat → List (Nat × Nat)
  | [], k, v => [(k, v)]
  | (k0, v0) :: r, k, v => if k0 = k then (k, v) :: r else (k0, v0) :: setV r k v

/-- Update one node through a function. -/
def overN (st : St) (i : Nat) (g : Node → Node) : St := setN st i (g (getN st i))

def foldOver (st : St) (l : List Nat) (g : Node → Node) : St :=
  l.foldl (fun s i => overN s i g) st

/-- `for (let i of this.inputs) i.readers.delete(this.#ref)`. -/
def unsub (st : St) (ins : List Nat) (id : Nat) : St :=
  foldOver st ins (fun n => { n with readers := removeL n.readers id })

/-- `for (let i of this.inputs) i.readers.add(this.#ref)`. -/
def resub (st : St) (ins : List Nat) (id : Nat) : St :=
  foldOver st ins (fun n => { n with readers := addL n.readers id })

/-- The reader-dirtying loop of the input setter. -/
def dirtyAll (st : St) (rs : List Nat) : St :=
  foldOver st rs (fun n => { n with dirty := true })

/-- Result of an operation returning a value: normal return, thrown
error, or out of fuel. -/
inductive Res1 where
  | ok : W → St → Res1
  | thr : Err → St → Res1
  | out : Res1

/-- Result of reading a list of sources. -/
inductive ResL where
  | ok : List W → St → ResL
  | thr : Err → St → ResL
  | out : ResL

/-- Result of the input setter. -/
inductive ResU where
  | ok : St → ResU
  | thr : Err → St → ResU

/-- The version-comparison loop of `makeCt` (lines 207-214): walk the
direct sources, and for each whose recorded version is missing or
stale, record the current version and clear the `sameV` flag. -/
def updLR (st : St) : List Nat → List (Nat × Nat) → Bool → List (Nat × Nat) × Bool
  | [], lr, same => (lr, same)
  | s :: ss, lr, same =>
    match lookupV lr s with
    | some x =>
      if x = (getN st s).version then updLR st ss lr same
      else updLR st ss (setV lr s (getN st s).version) false
    | none => updLR st ss (setV lr s (getN st s).version) false

/-- `InputImpl`'s `set value(t)` (lines 184-193): reentrancy check,
equality no-op, then store the value, bump the version and dirty every
reader. -/
def setValue (i : Nat) (t : W) (st : St) : ResU :=
  if st.globalState then .thr .nonReactive { st with globalState := false }
  else
    match (getN st i).kind with
    | .der _ _ => .ok st
    | .inp cur =>
      if cur = t then .ok st
      else
        let n := getN st i
        let st1 := setN st i { n with kind := .inp t, version := n.version + 1 }
        .ok (dirtyAll st1 (getN st1 i).readers)

/-- The state reached inside a SAME-verdict read right after the
`lastRead` refresh (the getter's `st3`; when the verdict is SAME the
version loop recorded nothing new, so this only rewrites the node's
`lastRead` with the recomputed map). -/
def sameStepSt (id : Nat) (sources : List Nat) (st2 : St) : St :=
  setN st2 id
    { getN st2 id with lastRead := (updLR st2 sources (getN st2 id).lastRead true).1 }

/-- That state with `lastSignal` re-recorded, as the auto-unwrap branch
sees it just before re-reading the remembered signal. -/
def sameStepLs (id : Nat) (sources : List Nat) (st2 : St) (ls : Nat) : St :=
  setN (sameStepSt id sources st2) id
    { getN (sameStepSt id sources st2) id with lastSignal := some ls }

/-- The SAME-verdict short-circuit with no remembered signal
(callback lines 129-133 followed by the getter tail): mark the node
clean, resubscribe its unchanged inputs and return the cached value. -/
def sameFinish (id : Nat) (st3 : St) : Res1 :=
  let st4 := setN st3 id { getN st3 id with dirty := false }
  let st5 := resub st4 (getN st4 id).inputs id
  .ok (getN st5 id).cached st5

/-- The tail of the getter callback (lines 149-158): equality check on
the cached value, version bump, mark clean, install the new inputs set,
resubscribe and return the cached value. -/
def finishVal (id : Nat) (xv : W) (inputsF : List Nat) (st : St) : Res1 :=
  let n := getN st id
  let st1 := if xv = n.cached then st
             else setN st id { n with cached := xv, version := n.version + 1 }
  let st2 := setN st1 id { getN st1 id with dirty := false, inputs := inputsF }
  let st3 := resub st2 inputsF id
  .ok (getN st3 id).cached st3

mutual

/-- `SignalImpl`'s `get value()` (lines 120-159) with `makeCt`
(lines 196-224) inlined, and `InputImpl`'s getter override
(lines 180-183).  Fuel bounds the recursion depth. -/
def getValue : Nat → Nat → St → Res1
  | 0, _, _ => .out
  | fuel + 1, id, st =>
    if st.globalState then .thr .nonReactive { st with globalState := false }
    else
      match (getN st id).kind with
      | .inp v => .ok v st
      | .der sources fn =>
        if (getN st id).dirty = false then .ok (getN st id).cached st
        else
          let st1 := unsub st (getN st id).inputs id
          match readSources fuel sources st1 with
          | .thr e s => .thr e s
          | .out => .out
          | .ok values st2 =>
            let inputsNew := sources.foldl (fun acc s => unionL acc (getN st2 s).inputs) []
            let pr := updLR st2 sources (getN st2 id).lastRead true
            if pr.2 then
              match (getN (sameStepSt id sources st2) id).lastSignal with
              | none => sameFinish id (sameStepSt id sources st2)
              | some ls =>
                unwrapFinish fuel id (.sigRef ls)
                  (getN (sameStepSt id sources st2) id).inputs (sameStepSt id sources st2)
            else
              let st3 := sameStepSt id sources st2
              let st4 := setN { st3 with globalState := true } id
                           { getN st3 id with compCount := (getN st3 id).compCount + 1 }
              match runAct fuel (fn values) st4 with
              | .thr e s => .thr e s
              | .out => .out
              | .ok res st5 => unwrapFinish fuel id res inputsNew { st5 with globalState := false }

/-- `signals.map(s => s.value)` (line 201), threading state and
propagating exceptions. -/
def readSources : Nat → List Nat → St → ResL
  | 0, _, _ => .out
  | _ + 1, [], st => .ok [] st
  | fuel + 1, s :: ss, st =>
    match getValue fuel s st with
    | .thr e st2 => .thr e st2
    | .out => .out
    | .ok v st2 =>
      match readSources fuel ss st2 with
      | .thr e st3 => .thr e st3
      | .out => .out
      | .ok vs st3 => .ok (v :: vs) st3

/-- Run a user compute body.  Gets and sets go through the real
engine entry points (so they hit `checkGlobalState` and fail while the
flag is `COMPUTING`); `fail` models a user-thrown exception, which in
the source propagates out of `f(...values)` with no `finally`. -/
def runAct : Nat → Act → St → Res1
  | 0, _, _ => .out
  | fuel + 1, a, st =>
    match a with
    | .ret w => .ok w st
    | .get i k =>
      match getValue fuel i st with
      | .thr e st2 => .thr e st2
      | .out => .out
      | .ok w st2 => runAct fuel (k w) st2
    | .set i w rest =>
      match setValue i w st with
      | .thr e st2 => .thr e st2
      | .ok st2 => runAct fuel rest st2
    | .fail => .thr .userErr st

/-- The auto-unwrap step of the getter callback (lines 143-147): if the
computed result is a signal, record it in `lastSignal`, read its value
and merge its inputs; then finish with the equality/state update. -/
def unwrapFinish : Nat → Nat → W → List Nat → St → Res1
  | 0, _, _, _, _ => .out
  | fuel + 1, id, x, base, st =>
    match x with
    | .raw _ => finishVal id x base st
    | .sigRef s =>
      let stA := setN st id { getN st id with lastSignal := some s }
      match getValue fuel s stA with
      | .thr e st2 => .thr e st2
      | .out => .out
      | .ok xv st2 => finishVal id xv (unionL base (getN st2 s).inputs) st2

end

/-- `input(t)`: allocate an `InputImpl`.  Its `inputs` set is `{this}`,
its state starts `CLEAN`. -/
def mkInput (v : W) (st : St) : Nat × St :=
  (st.next,
   { st with
      nodes := fun j => if j = st.next then
          { kind := .inp v, dirty := false, version := 0, lastRead := []
            cached := .raw .vnull, inputs := [st.next], readers := []
            lastSignal := none, compCount := 0 }
        else st.nodes j
      next := st.next + 1 })

/-- `s.read(f)` / `read(s1, ..., sn, f)`: allocate a derived
`SignalImpl` with the given direct sources and compute function.  It
starts `DIRTY` with an empty inputs set; the compute function is not
invoked. -/
def mkRead (sources : List Nat) (fn : List W → Act) (st : St) : Nat × St :=
  (st.next,
   { st with
      nodes := fun j => if j = st.next then
          { kind := .der sources fn, dirty := true, version := 0, lastRead := []
            cached := .raw .vnull, inputs := [], readers := []
            lastSignal := none, compCount := 0 }
        else st.nodes j
      next := st.next + 1 })

def stOfU : ResU → St
  | .ok s => s
  | .thr _ s => s

def stOf1 : Res1 → St
  | .ok _ s => s
  | .thr _ s => s
  | .out => emptySt

def valOf : Res1 → Option W
  | .ok w _ => some w
  | _ => none

def errOf : Res1 → Option Err
  | .thr e _ => some e
  | _ => none

/-- Read a signal for its post-state (fixed generous fuel for the small
concrete scenarios). -/
def rdSt (st : St) (i : Nat) : St := stOf1 (getValue 40 i st)

def rdVal (st : St) (i : Nat) : Option W := valOf (getValue 40 i st)

def wrSt (st : St) (i : Nat) (v : W) : St := stOfU (setValue i v st)

def applyWrite (st : St) (iv : Nat × W) : St := stOfU (setValue iv.1 iv.2 st)

def applyWrites (st : St) (ws : List (Nat × W)) : St := ws.foldl applyWrite st

/-! ### Concrete scenarios from the spec and the test suite -/

/-- First argument of a compute callback. -/
def headW : List W → W
  | w :: _ => w
  | [] => .raw .vnull

/-- First argument as an integer (scenario computes only apply this to
numeric arguments). -/
def headNum : List W → Int
  | .raw (.num n) :: _ => n
  | _ => 0

/-- `n => n % 2 == 0`. -/
def parityFn (vs : List W) : Act := .ret (.raw (.bool (headNum vs % 2 == 0)))

/-- `p => p ? "even" : "odd"`. -/
def labelFn (vs : List W) : Act :=
  .ret (.raw (.str (match headW vs with
    | .raw (.bool true) => "even"
    | _ => "odd")))

/-- `x => x` (pass-through). -/
def idFn (vs : List W) : Act := .ret (headW vs)

/-- Parity scenario: `x = input(0)` (id 0), `parity = x.read(parityFn)`
(id 1), `label = parity.read(labelFn)` (id 2). -/
def c3st : St :=
  (mkRead [1] labelFn (mkRead [0] parityFn (mkInput (.raw (.num 0)) emptySt).2).2).2

/-- After the first `label.value` read. -/
def c3A : St := rdSt c3st 2

/-- After `x.value = 2` and a second `label.value` read. -/
def c3B : St := rdSt (wrSt c3A 0 (.raw (.num 2))) 2

/-- After `x.value = 1` and a third `label.value` read. -/
def c3C : St := rdSt (wrSt c3B 0 (.raw (.num 1))) 2

/-- `v => v * 10`. -/
def tenFn (vs : List W) : Act := .ret (.raw (.num (10 * headNum vs)))

/-- `v => v % 2`. -/
def modFn (vs : List W) : Act := .ret (.raw (.num (headNum vs % 2)))

/-- `cv => cv == 0 ? s1 : 99` where `s1` is the pre-existing signal
with id 2. -/
def pickFn (vs : List W) : Act :=
  if headW vs = .raw (.num 0) then .ret (.sigRef 2) else .ret (.raw (.num 99))

/-- Stale-`lastSignal` scenario: `x2 = input(0)` (id 0),
`x = input(1)` (id 1), `s1 = x.read(tenFn)` (id 2),
`c = x2.read(modFn)` (id 3), `d2 = c.read(pickFn)` (id 4). -/
def c1st : St :=
  (mkRead [3] pickFn
    (mkRead [0] modFn
      (mkRead [1] tenFn
        (mkInput (.raw (.num 1))
          (mkInput (.raw (.num 0)) emptySt).2).2).2).2).2

/-- Run the stale-`lastSignal` scenario up to the final read:
read `d2`, write `x2 = 1`, read `d2`, write `x2 = 3`. -/
def c1pre : St := wrSt (rdSt (wrSt (rdSt c1st 4) 0 (.raw (.num 1))) 4) 0 (.raw (.num 3))

/-- State after the final `d2.value` read. -/
def c1fin : St := rdSt c1pre 4

/-- `_ => a.value * 2` where `a` is the input with id 0: a non-reactive
read inside a compute body. -/
def nrFn (_ : List W) : Act :=
  .get 0 (fun w => .ret (.raw (.num (2 * (match w with | .raw (.num n) => n | _ => 0)))))

/-- Non-reactive-access scenario: `a = input(1)` (id 0),
`d = a.read(nrFn)` (id 1). -/
def c5st : St := (mkRead [0] nrFn (mkInput (.raw (.num 1)) emptySt).2).2

/-- The read of `d.value` that hits the reentrancy guard. -/
def c5res : Res1 := getValue 40 1 c5st

/-- `_ => { throw }`: a user compute body that throws. -/
def throwFn (_ : List W) : Act := .fail

/-- User-exception scenario: `a = input(1)` (id 0), `d` derived from it
with a throwing compute (id 1). -/
def c6st : St := (mkRead [0] throwFn (mkInput (.raw (.num 1)) emptySt).2).2

/-- The read of `d.value` during which the user compute throws. -/
def c6res : Res1 := getValue 40 1 c6st

/-- `bv => bv ? xS : yS` with `xS` id 3 and `yS` id 4 pre-existing. -/
def branchFn (vs : List W) : Act :=
  if headW vs = .raw (.bool true) then .ret (.sigRef 3) else .ret (.sigRef 4)

/-- Detached-branch scenario: `x = input("x")` (id 0),
`y = input("y")` (id 1), `b = input(true)` (id 2), `xS = x.read(idFn)`
(id 3), `yS = y.read(idFn)` (id 4), `z = b.read(branchFn)` (id 5). -/
def c7st : St :=
  (mkRead [2] branchFn
    (mkRead [1] idFn
      (mkRead [0] idFn
        (mkInput (.raw (.bool true))
          (mkInput (.raw (.str "y"))
            (mkInput (.raw (.str "x")) emptySt).2).2).2).2).2).2

/-- Read `z`, then write `x = "x2"`: `z` is dirty again, its direct
source `b` is unchanged, so the next read takes the SAME-verdict path
with `lastSignal = xS`. -/
def c7pre : St := wrSt (rdSt c7st 5) 0 (.raw (.str "x2"))

/-- State after the second `z.value` read. -/
def c7fin : St := rdSt c7pre 5

/-- `_ => i2` where `i2` is the input with id 1 that itself stores a
signal. -/
def sigOfSigFn (_ : List W) : Act := .ret (.sigRef 1)

/-- Signal-in-an-input scenario: `inner = input(5)` (id 0),
`i2 = input(inner)` (id 1), `c = input(true)` (id 2),
`d = c.read(_ => i2)` (id 3). -/
def c8st : St :=
  (mkRead [2] sigOfSigFn
    (mkInput (.raw (.bool true))
      (mkInput (.sigRef 0)
        (mkInput (.raw (.num 5)) emptySt).2).2).2).2

/-- The read of `d.value`: one level of unwrap reads `i2.value`, which
is the signal `inner` itself. -/
def c8res : Res1 := getValue 40 3 c8st

/-- Laziness scenario: `a = input(1)` (id 0), `c = a.read(idFn)`
(id 1), and the two-level chain `b2 = a.read(idFn)` (id 2),
`c2 = b2.read(idFn)` (id 3). -/
def c9st : St :=
  (mkRead [2] idFn
    (mkRead [0] idFn
      (mkRead [0] idFn (mkInput (.raw (.num 1)) emptySt).2).2).2).2

def c9A : St := rdSt c9st 1

def c9B : St := rdSt c9A 1

/-- Reading the downstream node of the chain computes both levels. -/
def c9C : St := rdSt c9B 3

/-! ### Definitions supporting the general theorems -/

/-- The post-state of a value-changing input write (the non-no-op branch
of the setter). -/
def writePost (x : Nat) (t : W) (st : St) : St :=
  let n := getN st x
  let st1 := setN st x { n with kind := .inp t, version := n.version + 1 }
  dirtyAll st1 (getN st1 x).readers

/-- A state with the reentrancy flag set to `COMPUTING`, as seen by a
get or set issued from inside a compute body. -/
def c10st : St := { c3A with globalState := true }

/-- A write sequence none of whose writes dirties the derived node `d`:
each write either targets an input outside `d`'s current `inputs` set,
or stores a value equal (per the engine's referential equality) to the
input's current value, making it a no-op. -/
def NonDirty (d : Nat) : List (Nat × W) → St → Prop
  | [], _ => True
  | (i, v) :: ws, st =>
      (memL (getN st d).inputs i = false ∨ (getN st i).kind = .inp v)
      ∧ NonDirty d ws (applyWrite st (i, v))

/-- `true` on raw (non-signal) values. -/
def isRaw : W → Bool
  | .raw _ => true
  | .sigRef _ => false

/-- A compute body that never writes a signal value into an input. -/
def RawAct : Act → Prop
  | .ret _ => True
  | .get _ k => ∀ w, RawAct (k w)
  | .set _ w rest => isRaw w = true ∧ RawAct rest
  | .fail => True

/-- A node whose cached value is raw, whose stored value (if an input)
is raw, and whose compute (if derived) never writes signals into
inputs. -/
def RawNode (n : Node) : Prop :=
  isRaw n.cached = true ∧
  (match n.kind with
   | .inp v => isRaw v = true
   | .der _ fn => ∀ vs, RawAct (fn vs))

/-- Every node of the state is `RawNode`. -/
def Raws (st : St) : Prop := ∀ i, RawNode (getN st i)

/-- Rawness of an operation result: the returned value is raw and the
post-state is raw again. -/
def RawR1 : Res1 → Prop
  | .ok w st => isRaw w = true ∧ Raws st
  | .thr _ st => Raws st
  | .out => True

/-- Rawness of a source-list read result. -/
def RawRL : ResL → Prop
  | .ok _ st => Raws st
  | .thr _ st => Raws st
  | .out => True

/-- Post-state rawness for a compute-body run (the returned value may
legitimately be a signal reference — that is the auto-unwrap case). -/
def RawRA : Res1 → Prop
  | .ok _ st => Raws st
  | .thr _ st => Raws st
  | .out => True

/-- Post-state rawness for a setter call. -/
def RawRU : ResU → Prop
  | .ok s => Raws s
  | .thr _ s => Raws s

def stOfL : ResL → St
  | .ok _ s => s
  | .thr _ s => s
  | .out => emptySt

/-- A small settled graph for exercising writes that cannot dirty `d`:
`x = input(1)` (id 0), `y = input(2)` (id 1), `d = x.read(idFn)`
(id 2), with `d` already computed once. -/
def c2st : St :=
  rdSt (mkRead [0] idFn
    (mkInput (.raw (.num 2)) (mkInput (.raw (.num 1)) emptySt).2).2).2 2

/-- The parity graph right before its second `label.value` read (after
`x.value = 2`): `label` is DIRTY with an unchanged direct source. -/
def c3w : St := wrSt c3A 0 (.raw (.num 2))

/-- State after the source read step of that SAME-verdict read. -/
def c3w2 : St := stOfL (readSources 39 [1] (unsub c3w (getN c3w 2).inputs 2))

/-- `(av, bv, cv) => cv ? a : b` over pre-existing inputs ids 0 and 1. -/
def pick2Fn (vs : List W) : Act :=
  if headW vs = .raw (.bool true) then .ret (.sigRef 0) else .ret (.sigRef 1)

/-- Signal-returning-compute scenario with raw inputs: `a = input(1)`
(id 0), `b = input(2)` (id 1), `c = input(false)` (id 2),
`res = c.read(cv => cv ? a : b)` (id 3). -/
def c8bst : St :=
  (mkRead [2] pick2Fn
    (mkInput (.raw (.bool false))
      (mkInput (.raw (.num 2))
        (mkInput (.raw (.num 1)) emptySt).2).2).2).2

def c8bA : St := rdSt c8bst 3

def c8bB : St := rdSt (wrSt c8bA 2 (.raw (.bool true))) 3

/-- Source-phase result state of the first `d.value` read in the
user-throw scenario. -/
def c6st2 : St := stOfL (readSources 39 [0] (unsub c6st (getN c6st 1).inputs 1))

/-- The state right before the user compute is invoked on a NEW
verdict: the getter's `st4` — `lastRead` refreshed, reentrancy flag set
to `COMPUTING`, compute counter bumped (the model's marker for
"`f(...values)` is called"). -/
def newStep (id : Nat) (sources : List Nat) (st2 : St) : St :=
  setN { sameStepSt id sources st2 with globalState := true } id
    { getN (sameStepSt id sources st2) id with
      compCount := (getN (sameStepSt id sources st2) id).compCount + 1 }

/-- Reentrancy-flag discipline of a getter result: normal returns and
guard (`NonReactiveAccess`) errors leave the flag `READY`, a user throw
leaves it `COMPUTING`. -/
def FlagR1 : Res1 → Prop
  | .ok _ st => st.globalState = false
  | .thr .nonReactive st => st.globalState = false
  | .thr .userErr st => st.globalState = true
  | .out => True

/-- The same discipline for a source-list read. -/
def FlagRL : ResL → Prop
  | .ok _ st => st.globalState = false
  | .thr .nonReactive st => st.globalState = false
  | .thr .userErr st => st.globalState = true
  | .out => True

/-! ### Basic lemmas about the state operations -/

theorem getN_setN_self (st : St) (i : Nat) (n : Node) : getN (setN st i n) i = n := by
  simp [getN, setN]

theorem getN_setN_ne (st : St) (i j : Nat) (n : Node) (h : j ≠ i) :
    getN (setN st i n) j = getN st j := by
  simp [getN, setN, h]

theorem globalState_setN (st : St) (i : Nat) (n : Node) :
    (setN st i n).globalState = st.globalState := rfl

theorem globalState_foldOver (g : Node → Node) :
    ∀ (l : List Nat) (st : St), (foldOver st l g).globalState = st.globalState := by
  intro l
  induction l with
  | nil => intro st; rfl
  | cons i r ih =>
    intro st
    show (foldOver (overN st i g) r g).globalState = st.globalState
    rw [ih]
    rfl

/-- A node projection untouched by the per-node update is untouched by
the whole fold. -/
theorem foldOver_field {α : Type} (p : Node → α) (g : Node → Node)
    (hp : ∀ n, p (g n) = p n) :
    ∀ (l : List Nat) (st : St) (j : Nat),
      p (getN (foldOver st l g) j) = p (getN st j) := by
  intro l
  induction l with
  | nil => intro st j; rfl
  | cons i r ih =>
    intro st j
    show p (getN (foldOver (overN st i g) r g) j) = p (getN st j)
    rw [ih]
    by_cases hji : j = i
    · subst hji
      show p (getN (setN st j (g (getN st j))) j) = _
      rw [getN_setN_self, hp]
    · show p (getN (setN st i (g (getN st i))) j) = _
      rw [getN_setN_ne _ _ _ _ hji]

theorem memL_cons_self (i : Nat) (r : List Nat) : memL (i :: r) i = true := by
  simp [memL]

theorem memL_cons_ne {i j : Nat} (r : List Nat) (h : ¬ (i = j)) :
    memL (i :: r) j = memL r j := by
  simp [memL, h]

/-- Ids not in the list keep their node unchanged. -/
theorem getN_foldOver_not_mem (g : Node → Node) :
    ∀ (l : List Nat) (st : St) (j : Nat), memL l j = false →
      getN (foldOver st l g) j = getN st j := by
  intro l
  induction l with
  | nil => intro st j _; rfl
  | cons i r ih =>
    intro st j hm
    have hji : ¬ (i = j) := by
      intro h
      rw [memL, if_pos h] at hm
      exact Bool.true_eq_false.mp hm
    have hr : memL r j = false := by
      rw [memL_cons_ne r hji] at hm
      exact hm
    show getN (foldOver (overN st i g) r g) j = getN st j
    rw [ih _ _ hr]
    exact getN_setN_ne _ _ _ _ (fun h => hji (Eq.symm h))

theorem getN_dirtyAll :
    ∀ (rs : List Nat) (st : St) (j : Nat),
      getN (dirtyAll st rs) j =
        if memL rs j then { getN st j with dirty := true } else getN st j := by
  intro rs
  induction rs with
  | nil => intro st j; simp [dirtyAll, foldOver, memL]
  | cons i r ih =>
    intro st j
    have hstep : dirtyAll st (i :: r)
        = dirtyAll (setN st i { getN st i with dirty := true }) r := rfl
    rw [hstep, ih]
    by_cases hji : j = i
    · subst hji
      rw [getN_setN_self, memL_cons_self]
      by_cases hm : memL r j
      · rw [if_pos hm, if_pos rfl]
      · rw [if_neg (by simp [hm]), if_pos rfl]
    · have hne : ¬ (i = j) := fun h => hji (Eq.symm h)
      rw [memL_cons_ne r hne, getN_setN_ne _ _ _ _ hji]

theorem memL_ne {l : List Nat} {r x : Nat} (hr : memL l r = true)
    (hx : memL l x = false) : r ≠ x := by
  intro h
  subst h
  rw [hr] at hx
  exact Bool.true_eq_false.mp hx

/-! ### Claim theorems -/

set_option maxHeartbeats 2000000 in
/-- C1: the claim that a CLEAN derived node's cached value always equals
what running its compute now on the current input values would produce
is violated by the code.  In the stale-`lastSignal` scenario, after
`d2`'s compute has switched from returning the signal `s1` to returning
the raw value `99`, `lastSignal` still holds `s1` (the getter never
clears it); a later read with an unchanged direct-source version takes
the SAME-verdict path, re-reads the stale `s1` and caches its value
`10`.  The node ends CLEAN with cached value `10`, while running its
compute now on the current source value `1` produces `99`. -/
theorem C1_clean_cache_stale :
    valOf (getValue 40 4 c1pre) = some (.raw (.num 10))
    ∧ (getN c1fin 4).dirty = false
    ∧ rdVal c1fin 4 = some (.raw (.num 10))
    ∧ rdVal c1fin 3 = some (.raw (.num 1))
    ∧ valOf (runAct 10 (pickFn [.raw (.num 1)]) c1fin) = some (.raw (.num 99)) := by
  decide

/-- C3: the parity short-circuit scenario.  `x = input(0)`,
`parity = x.read(n => n % 2 == 0)`, `label = parity.read(p => p ?
"even" : "odd")`.  The first `label.value` read returns "even" with
`label`'s compute invoked once; after `x.value = 2` the read still
returns "even" with the compute still invoked only once (parity
recomputed to an equal value, so its version did not move); after
`x.value = 1` the read returns "odd" with the compute invoked a second
time. -/
theorem C3_parity_short_circuit :
    rdVal c3st 2 = some (.raw (.str "even"))
    ∧ (getN c3A 2).compCount = 1
    ∧ rdVal (wrSt c3A 0 (.raw (.num 2))) 2 = some (.raw (.str "even"))
    ∧ (getN c3B 2).compCount = 1
    ∧ rdVal (wrSt c3B 0 (.raw (.num 1))) 2 = some (.raw (.str "odd"))
    ∧ (getN c3C 2).compCount = 2 := by
  decide

/-- C6 counterexample: when the user compute itself throws, the
reentrancy flag is NOT restored to READY before the error reaches the
caller — `makeCt` has no `finally`, so the `globalState = READY`
assignment after `f(...values)` is skipped and the flag stays
`COMPUTING` (`true`). -/
theorem C6_guard_not_restored_cx :
    errOf c6res = some .userErr ∧ (stOf1 c6res).globalState = true := by
  decide

/-- C7 counterexample: a read of the DIRTY node `z` (computed before,
direct source `b` unchanged, so the upstream verdict is SAME) does NOT
leave `cached_value` untouched.  `z` settled on the branch signal `xS`;
after `x.value = "x2"` the SAME-verdict path re-reads `lastSignal` and
updates `z`'s cached value from "x" to "x2" (while indeed never calling
`z`'s own compute). -/
theorem C7_same_verdict_cached_changes_cx :
    (getN c7pre 5).dirty = true
    ∧ (getN c7pre 5).lastRead = [(2, 0)]
    ∧ (getN c7pre 2).version = 0
    ∧ (getN c7pre 5).lastSignal = some 3
    ∧ (getN c7pre 5).cached = .raw (.str "x")
    ∧ valOf (getValue 40 5 c7pre) = some (.raw (.str "x2"))
    ∧ (getN c7fin 5).cached = .raw (.str "x2")
    ∧ (getN c7fin 5).compCount = 1 := by
  decide

/-- C8 counterexample: a derived node's cached value CAN be itself a
signal.  With `inner = input(5)`, `i2 = input(inner)` (an input whose
stored value is a signal) and `d = c.read(_ => i2)`, reading `d.value`
unwraps exactly one level: it reads `i2.value`, which is the signal
object `inner`, and caches it — so `d.value` is a signal, not a raw
value. -/
theorem C8_cached_signal_cx :
    valOf c8res = some (.sigRef 0)
    ∧ (getN (stOf1 c8res) 3).cached = .sigRef 0
    ∧ isRaw (getN (stOf1 c8res) 3).cached = false := by
  decide

/-- C5: while the reentrancy guard is `COMPUTING`, every get and every
set fails with the NonReactiveAccess error and the guard is reset to
`READY` before the error surfaces — the thrown state differs from the
pre-state only in the flag.  Concretely, for `a = input(1)` and
`d = a.read(_ => a.value * 2)`, reading `d.value` fails with
NonReactiveAccess, the guard ends `READY` and `d` stays DIRTY. -/
theorem C5_reentrancy_guard (f i : Nat) (t : W) (st : St)
    (hg : st.globalState = true) :
    getValue (f + 1) i st = .thr .nonReactive { st with globalState := false }
    ∧ setValue i t st = .thr .nonReactive { st with globalState := false }
    ∧ errOf c5res = some .nonReactive
    ∧ (stOf1 c5res).globalState = false
    ∧ (getN (stOf1 c5res) 1).dirty = true := by
  refine ⟨?_, ?_, by decide, by decide, by decide⟩
  · simp only [getValue, hg, if_true]
  · simp only [setValue, hg, if_true]

/-- C5 witness: the guard theorem applied at the concrete COMPUTING
state `c10st`. -/
theorem C5_reentrancy_guard_w :
    getValue 1 0 c10st = .thr .nonReactive { c10st with globalState := false }
    ∧ setValue 0 (.raw .vnull) c10st
        = .thr .nonReactive { c10st with globalState := false } :=
  ⟨(C5_reentrancy_guard 0 0 (.raw .vnull) c10st rfl).1,
   (C5_reentrancy_guard 0 0 (.raw .vnull) c10st rfl).2.1⟩

/-- C10: a write rejected by the reentrancy guard is atomic in its
failure: the guard check precedes any mutation in the setter, so the
error state differs from the pre-state only in the guard flag — the
input keeps its stored value and version and no reader is dirtied. -/
theorem C10_guarded_write_atomic (x : Nat) (t : W) (st : St)
    (hg : st.globalState = true) :
    setValue x t st = .thr .nonReactive { st with globalState := false }
    ∧ getN { st with globalState := false } x = getN st x
    ∧ (∀ j, getN { st with globalState := false } j = getN st j) := by
  refine ⟨?_, rfl, fun j => rfl⟩
  simp only [setValue, hg, if_true]

/-- C10 witness: the atomic-failure theorem applied at the concrete
COMPUTING state `c10st` for a write to input 0. -/
theorem C10_guarded_write_atomic_w :
    setValue 0 (.raw (.num 7)) c10st
        = .thr .nonReactive { c10st with globalState := false }
    ∧ getN { c10st with globalState := false } 0 = getN c10st 0 :=
  ⟨(C10_guarded_write_atomic 0 (.raw (.num 7)) c10st rfl).1,
   (C10_guarded_write_atomic 0 (.raw (.num 7)) c10st rfl).2.1⟩

theorem compCount_dirtyAll (rs : List Nat) (st : St) (j : Nat) :
    (getN (dirtyAll st rs) j).compCount = (getN st j).compCount :=
  foldOver_field (fun n => n.compCount) (fun n => { n with dirty := true })
    (fun _ => rfl) rs st j

/-- C9: laziness.  Allocating a derived node touches no existing node
and the new node starts DIRTY with its compute never invoked; an input
write never invokes any compute (every invocation counter is
preserved); and concretely, in the chain `a = input(1)`,
`c = a.read(x => x)`, `b2 = a.read(x => x)`, `c2 = b2.read(x => x)`,
no counter moves before a read, the first `c.value` read runs `c`'s
compute once, a second read leaves it at one, and reading the
transitive reader `c2` is what first runs `b2`'s compute. -/
theorem C9_laziness :
    (∀ (sources : List Nat) (fn : List W → Act) (st : St) (j : Nat),
        j ≠ st.next → getN (mkRead sources fn st).2 j = getN st j)
    ∧ (∀ (sources : List Nat) (fn : List W → Act) (st : St),
        (getN (mkRead sources fn st).2 st.next).compCount = 0
        ∧ (getN (mkRead sources fn st).2 st.next).dirty = true)
    ∧ (∀ (i : Nat) (t : W) (st : St) (j : Nat),
        (getN (stOfU (setValue i t st)) j).compCount = (getN st j).compCount)
    ∧ ((getN c9st 1).compCount = 0
        ∧ rdVal c9st 1 = some (.raw (.num 1)) ∧ (getN c9A 1).compCount = 1
        ∧ rdVal c9A 1 = some (.raw (.num 1)) ∧ (getN c9B 1).compCount = 1
        ∧ (getN c9B 2).compCount = 0 ∧ (getN c9B 3).compCount = 0
        ∧ rdVal c9B 3 = some (.raw (.num 1))
        ∧ (getN c9C 2).compCount = 1 ∧ (getN c9C 3).compCount = 1) := by
  refine ⟨?_, ?_, ?_, by decide⟩
  · intro sources fn st j hj
    simp [mkRead, getN, hj]
  · intro sources fn st
    constructor
    · simp [mkRead, getN]
    · simp [mkRead, getN]
  · intro i t st j
    by_cases hg : st.globalState = true
    · simp only [setValue, hg, if_true, stOfU]
      rfl
    · rw [setValue, if_neg hg]
      split
      · rfl
      · rename_i cur heq
        by_cases he : cur = t
        · rw [if_pos he]
          rfl
        · rw [if_neg he]
          simp only [stOfU]
          rw [compCount_dirtyAll]
          by_cases hj : j = i
          · subst hj
            rw [getN_setN_self]
          · rw [getN_setN_ne _ _ _ _ hj]

/-- C9 witness: allocating the outer node of the laziness chain leaves
the input node 0 untouched. -/
theorem C9_laziness_w :
    getN c9st 0
      = getN (mkRead [0] idFn
          (mkRead [0] idFn (mkInput (.raw (.num 1)) emptySt).2).2).2 0 :=
  C9_laziness.1 [2] idFn
    (mkRead [0] idFn (mkRead [0] idFn (mkInput (.raw (.num 1)) emptySt).2).2).2 0
    (by decide)

/-- Unfolding of the setter on an input node. -/
theorem setValue_inp (x : Nat) (t cur : W) (st : St)
    (hg : ¬ st.globalState = true) (hk : (getN st x).kind = .inp cur) :
    setValue x t st = if cur = t then .ok st else .ok (writePost x t st) := by
  rw [setValue, if_neg hg]
  split
  · rename_i a b heq
    rw [hk] at heq
    exact absurd heq (by simp)
  · rename_i c heq
    rw [hk] at heq
    injection heq with h2
    subst h2
    rfl

/-- Unfolding of the setter on a derived node (on which no setter
exists in the source; modelled as a no-op). -/
theorem setValue_der (x : Nat) (t : W) (st : St) (sources : List Nat)
    (fn : List W → Act)
    (hg : ¬ st.globalState = true) (hk : (getN st x).kind = .der sources fn) :
    setValue x t st = .ok st := by
  rw [setValue, if_neg hg]
  split
  · rfl
  · rename_i c heq
    rw [hk] at heq
    exact absurd heq (by simp)

/-- C4: the input setter.  If the new value equals the current one
(per the engine's referential equality) the write is a complete no-op —
the state is returned unchanged, so a repeated write of the same value
triggers at most one dirtying pass.  Otherwise the value is stored, the
version bumped, every node weakly referenced in `readers` has its state
set to DIRTY before the write returns, and no node beyond those direct
readers is touched. -/
theorem C4_setter (x : Nat) (t cur : W) (st : St)
    (hg : st.globalState = false) (hk : (getN st x).kind = .inp cur)
    (hx : memL (getN st x).readers x = false) :
    (cur = t → setValue x t st = .ok st)
    ∧ (cur ≠ t →
        setValue x t st = .ok (writePost x t st)
        ∧ (getN (writePost x t st) x).kind = .inp t
        ∧ (getN (writePost x t st) x).version = (getN st x).version + 1
        ∧ (getN (writePost x t st) x).readers = (getN st x).readers
        ∧ (getN (writePost x t st) x).dirty = (getN st x).dirty
        ∧ (∀ r, memL (getN st x).readers r = true →
            getN (writePost x t st) r = { getN st r with dirty := true })
        ∧ (∀ j, j ≠ x → memL (getN st x).readers j = false →
            getN (writePost x t st) j = getN st j)
        ∧ setValue x t (writePost x t st) = .ok (writePost x t st)) := by
  have hgb : ¬ st.globalState = true := by rw [hg]; exact Bool.false_ne_true
  have hrs : (getN (setN st x
      { getN st x with kind := .inp t, version := (getN st x).version + 1 }) x).readers
      = (getN st x).readers := by rw [getN_setN_self]
  have hpx : getN (writePost x t st) x
      = { getN st x with kind := .inp t, version := (getN st x).version + 1 } := by
    show getN (dirtyAll _ _) x = _
    rw [getN_dirtyAll, hrs, hx]
    simp only [Bool.false_eq_true, if_false]
    rw [getN_setN_self]
  constructor
  · intro he
    rw [setValue_inp x t cur st hgb hk, if_pos he]
  · intro hne
    have h1 : setValue x t st = .ok (writePost x t st) := by
      rw [setValue_inp x t cur st hgb hk, if_neg hne]
    have hreaders : ∀ r, memL (getN st x).readers r = true →
        getN (writePost x t st) r = { getN st r with dirty := true } := by
      intro r hr
      have hrx : r ≠ x := memL_ne hr hx
      show getN (dirtyAll _ _) r = _
      rw [getN_dirtyAll, hrs, hr]
      simp only [if_true]
      rw [getN_setN_ne _ _ _ _ hrx]
    have huntouched : ∀ j, j ≠ x → memL (getN st x).readers j = false →
        getN (writePost x t st) j = getN st j := by
      intro j hjx hjr
      show getN (dirtyAll _ _) j = _
      rw [getN_dirtyAll, hrs, hjr]
      simp only [Bool.false_eq_true, if_false]
      rw [getN_setN_ne _ _ _ _ hjx]
    have hflag : (writePost x t st).globalState = false := by
      have h2 : (writePost x t st).globalState = st.globalState := by
        show (foldOver _ _ _).globalState = _
        rw [globalState_foldOver]
        rfl
      rw [h2, hg]
    have hkp : (getN (writePost x t st) x).kind = .inp t := by rw [hpx]
    have hgbp : ¬ (writePost x t st).globalState = true := by
      rw [hflag]; exact Bool.false_ne_true
    have hidem : setValue x t (writePost x t st) = .ok (writePost x t st) := by
      rw [setValue_inp x t t _ hgbp hkp, if_pos rfl]
    exact ⟨h1, hkp, by rw [hpx], by rw [hpx], by rw [hpx],
      hreaders, huntouched, hidem⟩

/-- C4 witness: the setter theorem applied to input 0 of the computed
parity graph `c3A`, whose readers are the two derived nodes 1 and 2. -/
theorem C4_setter_w :
    setValue 0 (.raw (.num 7)) c3A = .ok (writePost 0 (.raw (.num 7)) c3A)
    ∧ getN (writePost 0 (.raw (.num 7)) c3A) 1 = { getN c3A 1 with dirty := true }
    ∧ getN (writePost 0 (.raw (.num 7)) c3A) 2 = { getN c3A 2 with dirty := true }
    ∧ getN (writePost 0 (.raw (.num 7)) c3A) 3 = getN c3A 3 := by
  have h := C4_setter 0 (.raw (.num 7)) (.raw (.num 0)) c3A rfl rfl (by decide)
  have h2 := h.2 (by decide)
  exact ⟨h2.1, h2.2.2.2.2.2.1 1 (by decide), h2.2.2.2.2.2.1 2 (by decide),
    h2.2.2.2.2.2.2.1 3 (by decide) (by decide)⟩

theorem readers_dirtyAll (rs : List Nat) (st : St) (j : Nat) :
    (getN (dirtyAll st rs) j).readers = (getN st j).readers :=
  foldOver_field (fun n => n.readers) (fun n => { n with dirty := true })
    (fun _ => rfl) rs st j

theorem readers_writePost (x : Nat) (t : W) (st : St) (j : Nat) :
    (getN (writePost x t st) j).readers = (getN st j).readers := by
  show (getN (dirtyAll _ _) j).readers = _
  rw [readers_dirtyAll]
  by_cases hj : j = x
  · subst hj
    rw [getN_setN_self]
  · rw [getN_setN_ne _ _ _ _ hj]

theorem globalState_writePost (x : Nat) (t : W) (st : St) :
    (writePost x t st).globalState = st.globalState := by
  show (foldOver _ _ _).globalState = _
  rw [globalState_foldOver]
  rfl

theorem getN_writePost_ne (x : Nat) (t : W) (st : St) (j : Nat)
    (hjx : j ≠ x) (hjr : memL (getN st x).readers j = false) :
    getN (writePost x t st) j = getN st j := by
  have hrs : (getN (setN st x
      { getN st x with kind := .inp t, version := (getN st x).version + 1 }) x).readers
      = (getN st x).readers := by rw [getN_setN_self]
  show getN (dirtyAll _ _) j = _
  rw [getN_dirtyAll, hrs, hjr]
  simp only [Bool.false_eq_true, if_false]
  rw [getN_setN_ne _ _ _ _ hjx]

/-- One write cannot touch a derived node that is not a reader of the
written input. -/
theorem applyWrite_keep (d i : Nat) (v : W) (st : St)
    (sources : List Nat) (fn : List W → Act)
    (hk : (getN st d).kind = .der sources fn)
    (hg : st.globalState = false)
    (hcond : memL (getN st d).inputs i = false ∨ (getN st i).kind = .inp v)
    (hcorr : memL (getN st i).readers d = true → memL (getN st d).inputs i = true) :
    getN (applyWrite st (i, v)) d = getN st d := by
  have hgb : ¬ st.globalState = true := by rw [hg]; exact Bool.false_ne_true
  show getN (stOfU (setValue i v st)) d = _
  rcases hki : (getN st i).kind with ⟨cur⟩ | ⟨s2, f2⟩
  · rw [setValue_inp i v cur st hgb hki]
    by_cases he : cur = v
    · rw [if_pos he]
      rfl
    · rw [if_neg he]
      simp only [stOfU]
      have hdi : d ≠ i := by
        intro h
        rw [h, hki] at hk
        exact absurd hk (by simp)
      have hinp : memL (getN st d).inputs i = false := by
        rcases hcond with h | h
        · exact h
        · rw [hki] at h
          injection h with h2
          exact absurd h2 he
      have hrd : memL (getN st i).readers d = false := by
        cases hmem : memL (getN st i).readers d
        · rfl
        · have h3 := hcorr hmem
          rw [hinp] at h3
          exact absurd h3 (by simp)
      exact getN_writePost_ne i v st d hdi hrd
  · rw [setValue_der i v st s2 f2 hgb hki]
    rfl

theorem applyWrite_flag (i : Nat) (v : W) (st : St) (hg : st.globalState = false) :
    (applyWrite st (i, v)).globalState = false := by
  have hgb : ¬ st.globalState = true := by rw [hg]; exact Bool.false_ne_true
  show (stOfU (setValue i v st)).globalState = false
  rcases hki : (getN st i).kind with ⟨cur⟩ | ⟨s2, f2⟩
  · rw [setValue_inp i v cur st hgb hki]
    by_cases he : cur = v
    · rw [if_pos he]
      exact hg
    · rw [if_neg he]
      simp only [stOfU]
      rw [globalState_writePost]
      exact hg
  · rw [setValue_der i v st s2 f2 hgb hki]
    exact hg


theorem applyWrite_readers (i : Nat) (v : W) (st : St) (j : Nat)
    (hg : st.globalState = false) :
    (getN (applyWrite st (i, v)) j).readers = (getN st j).readers := by
  have hgb : ¬ st.globalState = true := by rw [hg]; exact Bool.false_ne_true
  show (getN (stOfU (setValue i v st)) j).readers = _
  rcases hki : (getN st i).kind with ⟨cur⟩ | ⟨s2, f2⟩
  · rw [setValue_inp i v cur st hgb hki]
    by_cases he : cur = v
    · rw [if_pos he]
      rfl
    · rw [if_neg he]
      simp only [stOfU]
      rw [readers_writePost]
  · rw [setValue_der i v st s2 f2 hgb hki]
    rfl

/-- A non-dirtying write sequence leaves the derived node `d` — and
every reader set — untouched. -/
theorem nonDirty_keep (d : Nat) (sources : List Nat) (fn : List W → Act) :
    ∀ (ws : List (Nat × W)) (st : St),
      (getN st d).kind = .der sources fn → st.globalState = false →
      (∀ i v, (i, v) ∈ ws → memL (getN st i).readers d = true →
        memL (getN st d).inputs i = true) →
      NonDirty d ws st →
      getN (applyWrites st ws) d = getN st d
      ∧ (applyWrites st ws).globalState = false
      ∧ (∀ j, (getN (applyWrites st ws) j).readers = (getN st j).readers) := by
  intro ws
  induction ws with
  | nil =>
    intro st _ hg _ _
    exact ⟨rfl, hg, fun _ => rfl⟩
  | cons iv ws ih =>
    obtain ⟨i, v⟩ := iv
    intro st hk hg hcorr hnd
    obtain ⟨hcond, hnd2⟩ := hnd
    have hstep : getN (applyWrite st (i, v)) d = getN st d :=
      applyWrite_keep d i v st sources fn hk hg hcond
        (hcorr i v (List.mem_cons_self _ _))
    have hflag : (applyWrite st (i, v)).globalState = false :=
      applyWrite_flag i v st hg
    have hread : ∀ j, (getN (applyWrite st (i, v)) j).readers = (getN st j).readers :=
      fun j => applyWrite_readers i v st j hg
    have hcorr2 : ∀ i2 v2, (i2, v2) ∈ ws →
        memL (getN (applyWrite st (i, v)) i2).readers d = true →
        memL (getN (applyWrite st (i, v)) d).inputs i2 = true := by
      intro i2 v2 hm h2
      rw [hread i2] at h2
      rw [hstep]
      exact hcorr i2 v2 (List.mem_cons_of_mem _ hm) h2
    have hrest := ih (applyWrite st (i, v)) (by rw [hstep]; exact hk) hflag hcorr2 hnd2
    have hws : applyWrites st ((i, v) :: ws) = applyWrites (applyWrite st (i, v)) ws := rfl
    refine ⟨?_, ?_, ?_⟩
    · rw [hws, hrest.1, hstep]
    · rw [hws]
      exact hrest.2.1
    · intro j
      rw [hws, hrest.2.2 j, hread j]

/-- The getter's fast path: a CLEAN derived node returns its cached
value with no state change. -/
theorem getValue_fast (f id : Nat) (st : St) (sources : List Nat)
    (fn : List W → Act)
    (hg : ¬ st.globalState = true)
    (hk : (getN st id).kind = .der sources fn)
    (hd : (getN st id).dirty = false) :
    getValue (f + 1) id st = .ok (getN st id).cached st := by
  rw [getValue, if_neg hg]
  split
  · rename_i v heq
    rw [hk] at heq
    exact absurd heq (by simp)
  · rename_i s2 f2 heq
    rw [if_pos hd]

/-- C2: if no input in a computed (CLEAN) derived node `d`'s transitive
`inputs` set receives a value-changing write, `d` stays CLEAN and
entirely untouched, and the next read of `d` returns the cached value
with no state change at all — in particular no compute is invoked, and
writes to inputs outside `d`'s `inputs` set never cause `d` to
recompute.  The `hcorr` hypothesis is the source's subscription
invariant: an input listing `d` among its readers is in `d`'s `inputs`
set. -/
theorem C2_clean_unaffected (d f : Nat) (st : St) (ws : List (Nat × W))
    (sources : List Nat) (fn : List W → Act)
    (hk : (getN st d).kind = .der sources fn)
    (hc : (getN st d).dirty = false)
    (hg : st.globalState = false)
    (hcorr : ∀ i v, (i, v) ∈ ws → memL (getN st i).readers d = true →
        memL (getN st d).inputs i = true)
    (hnd : NonDirty d ws st) :
    getN (applyWrites st ws) d = getN st d
    ∧ getValue (f + 1) d (applyWrites st ws)
        = .ok (getN st d).cached (applyWrites st ws) := by
  obtain ⟨h1, h2, -⟩ := nonDirty_keep d sources fn ws st hk hg hcorr hnd
  refine ⟨h1, ?_⟩
  have hgb : ¬ (applyWrites st ws).globalState = true := by
    rw [h2]
    exact Bool.false_ne_true
  rw [getValue_fast f d (applyWrites st ws) sources fn hgb
      (by rw [h1]; exact hk) (by rw [h1]; exact hc), h1]

/-- C2 witness: in the settled graph `c2st` (inputs 0 and 1, derived
node 2 reading only input 0), a write to the unrelated input 1 leaves
node 2 untouched and the next read is a pure cache hit. -/
theorem C2_clean_unaffected_w :
    getN (applyWrites c2st [(1, .raw (.num 9))]) 2 = getN c2st 2
    ∧ getValue (4 + 1) 2 (applyWrites c2st [(1, .raw (.num 9))])
        = .ok (getN c2st 2).cached (applyWrites c2st [(1, .raw (.num 9))]) :=
  C2_clean_unaffected 2 4 c2st [(1, .raw (.num 9))] [0] idFn rfl rfl rfl
    (by
      intro i v hm h
      rw [List.mem_singleton] at hm
      have hi : i = 1 := congrArg Prod.fst hm
      subst hi
      exact absurd h (by decide))
    ⟨Or.inl (by decide), trivial⟩

theorem resub_cached (ins : List Nat) (st : St) (id j : Nat) :
    (getN (resub st ins id) j).cached = (getN st j).cached :=
  foldOver_field (fun n => n.cached) (fun n => { n with readers := addL n.readers id })
    (fun _ => rfl) ins st j

theorem resub_inputs (ins : List Nat) (st : St) (id j : Nat) :
    (getN (resub st ins id) j).inputs = (getN st j).inputs :=
  foldOver_field (fun n => n.inputs) (fun n => { n with readers := addL n.readers id })
    (fun _ => rfl) ins st j

theorem resub_compCount (ins : List Nat) (st : St) (id j : Nat) :
    (getN (resub st ins id) j).compCount = (getN st j).compCount :=
  foldOver_field (fun n => n.compCount) (fun n => { n with readers := addL n.readers id })
    (fun _ => rfl) ins st j

theorem resub_dirty (ins : List Nat) (st : St) (id j : Nat) :
    (getN (resub st ins id) j).dirty = (getN st j).dirty :=
  foldOver_field (fun n => n.dirty) (fun n => { n with readers := addL n.readers id })
    (fun _ => rfl) ins st j

theorem cached_resub_setN (id : Nat) (ins : List Nat) (st1 : St) (n : Node) :
    (getN (resub (setN st1 id n) ins id) id).cached = n.cached := by
  rw [resub_cached, getN_setN_self]

theorem inputs_resub_setN (id : Nat) (ins : List Nat) (st1 : St) (n : Node) :
    (getN (resub (setN st1 id n) ins id) id).inputs = n.inputs := by
  rw [resub_inputs, getN_setN_self]

theorem compCount_resub_setN (id : Nat) (ins : List Nat) (st1 : St) (n : Node) :
    (getN (resub (setN st1 id n) ins id) id).compCount = n.compCount := by
  rw [resub_compCount, getN_setN_self]

theorem dirty_resub_setN (id : Nat) (ins : List Nat) (st1 : St) (n : Node) :
    (getN (resub (setN st1 id n) ins id) id).dirty = n.dirty := by
  rw [resub_dirty, getN_setN_self]

theorem globalState_resub (ins : List Nat) (id : Nat) (st : St) :
    (resub st ins id).globalState = st.globalState :=
  globalState_foldOver (fun n => { n with readers := addL n.readers id }) ins st

/-- What the getter's final callback step does to the node: installs
`xv` as the cached value (whether or not the equality check fires), the
new inputs set, and the CLEAN state, without invoking any compute. -/
theorem finishVal_spec (id : Nat) (xv : W) (ins : List Nat) (st : St) :
    ∃ st5, finishVal id xv ins st = .ok xv st5
      ∧ (getN st5 id).cached = xv
      ∧ (getN st5 id).inputs = ins
      ∧ (getN st5 id).compCount = (getN st id).compCount
      ∧ (getN st5 id).dirty = false
      ∧ st5.globalState = st.globalState := by
  by_cases he : xv = (getN st id).cached
  · have hval : finishVal id xv ins st
        = .ok (getN (resub (setN st id
              { getN st id with dirty := false, inputs := ins }) ins id) id).cached
            (resub (setN st id
              { getN st id with dirty := false, inputs := ins }) ins id) := by
      simp only [finishVal]
      rw [if_pos he]
    have hc : (getN (resub (setN st id
        { getN st id with dirty := false, inputs := ins }) ins id) id).cached = xv := by
      rw [cached_resub_setN]
      exact he.symm
    refine ⟨_, ?_, hc, ?_, ?_, ?_, ?_⟩
    · rw [hval, hc]
    · rw [inputs_resub_setN]
    · rw [compCount_resub_setN]
    · rw [dirty_resub_setN]
    · rw [globalState_resub]
      rfl
  · have hval : finishVal id xv ins st
        = .ok (getN (resub (setN (setN st id { getN st id with cached := xv, version := (getN st id).version + 1 }) id { getN (setN st id { getN st id with cached := xv, version := (getN st id).version + 1 }) id with dirty := false, inputs := ins }) ins id) id).cached (resub (setN (setN st id { getN st id with cached := xv, version := (getN st id).version + 1 }) id { getN (setN st id { getN st id with cached := xv, version := (getN st id).version + 1 }) id with dirty := false, inputs := ins }) ins id) := by
      simp only [finishVal]
      rw [if_neg he]
    have hc : (getN (resub (setN (setN st id { getN st id with cached := xv, version := (getN st id).version + 1 }) id { getN (setN st id { getN st id with cached := xv, version := (getN st id).version + 1 }) id with dirty := false, inputs := ins }) ins id) id).cached = xv := by
      rw [cached_resub_setN]
      show (getN (setN st id { getN st id with cached := xv, version := (getN st id).version + 1 }) id).cached = xv
      rw [getN_setN_self]
    have hcc : (getN (resub (setN (setN st id { getN st id with cached := xv, version := (getN st id).version + 1 }) id { getN (setN st id { getN st id with cached := xv, version := (getN st id).version + 1 }) id with dirty := false, inputs := ins }) ins id) id).compCount = (getN st id).compCount := by
      rw [compCount_resub_setN]
      show (getN (setN st id { getN st id with cached := xv, version := (getN st id).version + 1 }) id).compCount = (getN st id).compCount
      rw [getN_setN_self]
    refine ⟨_, ?_, hc, ?_, hcc, ?_, ?_⟩
    · rw [hval, hc]
    · rw [inputs_resub_setN]
    · rw [dirty_resub_setN]
    · rw [globalState_resub]
      rfl

theorem getN_sameStepSt (id : Nat) (sources : List Nat) (st2 : St) :
    getN (sameStepSt id sources st2) id
      = { getN st2 id with
          lastRead := (updLR st2 sources (getN st2 id).lastRead true).1 } := by
  show getN (setN st2 id _) id = _
  rw [getN_setN_self]

theorem lastSignal_sameStepSt (id : Nat) (sources : List Nat) (st2 : St) :
    (getN (sameStepSt id sources st2) id).lastSignal = (getN st2 id).lastSignal := by
  rw [getN_sameStepSt]

theorem inputs_sameStepSt (id : Nat) (sources : List Nat) (st2 : St) :
    (getN (sameStepSt id sources st2) id).inputs = (getN st2 id).inputs := by
  rw [getN_sameStepSt]

theorem cached_sameStepSt (id : Nat) (sources : List Nat) (st2 : St) :
    (getN (sameStepSt id sources st2) id).cached = (getN st2 id).cached := by
  rw [getN_sameStepSt]

theorem compCount_sameStepSt (id : Nat) (sources : List Nat) (st2 : St) :
    (getN (sameStepSt id sources st2) id).compCount = (getN st2 id).compCount := by
  rw [getN_sameStepSt]

/-- The SAME-verdict short-circuit when no computation ever returned a
signal: the node is marked clean and its cached value, inputs set and
compute counter are all left untouched. -/
theorem sameFinish_spec (id : Nat) (st3 : St) :
    ∃ st5, sameFinish id st3 = .ok (getN st3 id).cached st5
      ∧ (getN st5 id).cached = (getN st3 id).cached
      ∧ (getN st5 id).inputs = (getN st3 id).inputs
      ∧ (getN st5 id).compCount = (getN st3 id).compCount
      ∧ (getN st5 id).dirty = false
      ∧ st5.globalState = st3.globalState := by
  have hval : sameFinish id st3
      = .ok (getN (resub (setN st3 id { getN st3 id with dirty := false })
            (getN (setN st3 id { getN st3 id with dirty := false }) id).inputs id) id).cached
          (resub (setN st3 id { getN st3 id with dirty := false })
            (getN (setN st3 id { getN st3 id with dirty := false }) id).inputs id) := by
    simp only [sameFinish]
  have hc : (getN (resub (setN st3 id { getN st3 id with dirty := false })
      (getN (setN st3 id { getN st3 id with dirty := false }) id).inputs id) id).cached
      = (getN st3 id).cached := by
    rw [cached_resub_setN]
  refine ⟨_, ?_, hc, ?_, ?_, ?_, ?_⟩
  · rw [hval, hc]
  · rw [inputs_resub_setN]
  · rw [compCount_resub_setN]
  · rw [dirty_resub_setN]
  · rw [globalState_resub]
    rfl

/-- The auto-unwrap tail on a signal result: record it in `lastSignal`,
read it, merge its inputs into the base set, and finish with its
value. -/
theorem unwrapSig_spec (g id ls : Nat) (base : List Nat) (st : St) (xv : W) (stB : St)
    (hinner : getValue g ls (setN st id { getN st id with lastSignal := some ls })
        = .ok xv stB) :
    ∃ st5, unwrapFinish (g + 1) id (.sigRef ls) base st = .ok xv st5
      ∧ (getN st5 id).cached = xv
      ∧ (getN st5 id).inputs = unionL base (getN stB ls).inputs
      ∧ (getN st5 id).compCount = (getN stB id).compCount
      ∧ (getN st5 id).dirty = false := by
  simp only [unwrapFinish, hinner]
  obtain ⟨st5, h1, h2, h3, h4, h5, -⟩ :=
    finishVal_spec id xv (unionL base (getN stB ls).inputs) stB
  exact ⟨st5, h1, h2, h3, h4, h5⟩

/-- C7 amended: on a read of a DIRTY, previously computed derived node
whose upstream verdict is SAME (`hsame`), the node's own compute is
never invoked (its invocation counter is untouched) and the node ends
CLEAN.  If no earlier computation returned a signal (`lastSignal`
empty), the cached value and the inputs set are left untouched and the
cached value is returned.  If an earlier computation returned the
signal `ls`, the cached value is instead refreshed from a fresh read
of `ls`, whose inputs are merged into the node's inputs. -/
theorem C7_same_verdict (g id : Nat) (st st2 : St) (sources : List Nat)
    (fn : List W → Act) (values : List W)
    (hg : ¬ st.globalState = true)
    (hk : (getN st id).kind = .der sources fn)
    (hd : ¬ (getN st id).dirty = false)
    (hrs : readSources (g + 1) sources (unsub st (getN st id).inputs id)
        = .ok values st2)
    (hsame : (updLR st2 sources (getN st2 id).lastRead true).2 = true) :
    ((getN st2 id).lastSignal = none →
      ∃ st5, getValue (g + 1 + 1) id st = .ok (getN st2 id).cached st5
        ∧ (getN st5 id).cached = (getN st2 id).cached
        ∧ (getN st5 id).inputs = (getN st2 id).inputs
        ∧ (getN st5 id).compCount = (getN st2 id).compCount
        ∧ (getN st5 id).dirty = false)
    ∧ (∀ ls xv stB, (getN st2 id).lastSignal = some ls →
        getValue g ls (sameStepLs id sources st2 ls) = .ok xv stB →
        ∃ st5, getValue (g + 1 + 1) id st = .ok xv st5
          ∧ (getN st5 id).cached = xv
          ∧ (getN st5 id).inputs = unionL (getN st2 id).inputs (getN stB ls).inputs
          ∧ (getN st5 id).compCount = (getN stB id).compCount
          ∧ (getN st5 id).dirty = false) := by
  constructor
  · intro hls
    rw [getValue, if_neg hg]
    split
    · rename_i v heq
      rw [hk] at heq
      exact absurd heq (by simp)
    · rename_i s2 f2 heq
      rw [hk] at heq
      injection heq with e1 e2
      subst e1
      subst e2
      rw [if_neg hd]
      simp only [hrs, hsame, lastSignal_sameStepSt, hls, if_true, eq_self_iff_true]
      obtain ⟨st5, a1, a2, a3, a4, a5, -⟩ := sameFinish_spec id (sameStepSt id sources st2)
      rw [cached_sameStepSt] at a1 a2
      rw [inputs_sameStepSt] at a3
      rw [compCount_sameStepSt] at a4
      exact ⟨st5, a1, a2, a3, a4, a5⟩
  · intro ls xv stB hls hinner
    rw [getValue, if_neg hg]
    split
    · rename_i v heq
      rw [hk] at heq
      exact absurd heq (by simp)
    · rename_i s2 f2 heq
      rw [hk] at heq
      injection heq with e1 e2
      subst e1
      subst e2
      rw [if_neg hd]
      simp only [hrs, hsame, lastSignal_sameStepSt, hls, inputs_sameStepSt,
        if_true, eq_self_iff_true]
      exact unwrapSig_spec g id ls (getN st2 id).inputs (sameStepSt id sources st2)
        xv stB hinner

set_option maxHeartbeats 2000000 in
/-- C7 witness: the SAME-verdict theorem applied to the parity graph
right before its second `label.value` read. -/
theorem C7_same_verdict_w :
    ∃ st5, getValue (38 + 1 + 1) 2 c3w = .ok (getN c3w2 2).cached st5
      ∧ (getN st5 2).cached = (getN c3w2 2).cached
      ∧ (getN st5 2).inputs = (getN c3w2 2).inputs
      ∧ (getN st5 2).compCount = (getN c3w2 2).compCount
      ∧ (getN st5 2).dirty = false :=
  (C7_same_verdict 38 2 c3w c3w2 [1] labelFn [.raw (.bool true)] (by decide) rfl
    (by decide) rfl (by decide)).1 rfl

theorem rawNode_congr {n m : Node} (h1 : m.cached = n.cached)
    (h2 : m.kind = n.kind) (h : RawNode n) : RawNode m := by
  unfold RawNode at h ⊢
  rw [h1, h2]
  exact h

theorem Raws_setN {st : St} {n : Node} (i : Nat) (hst : Raws st)
    (hn : RawNode n) : Raws (setN st i n) := by
  intro j
  by_cases hj : j = i
  · subst hj
    rw [getN_setN_self]
    exact hn
  · rw [getN_setN_ne _ _ _ _ hj]
    exact hst j

theorem Raws_foldOver (g : Node → Node)
    (hg : ∀ n, (g n).cached = n.cached ∧ (g n).kind = n.kind) :
    ∀ (l : List Nat) (st : St), Raws st → Raws (foldOver st l g) := by
  intro l
  induction l with
  | nil => intro st hst; exact hst
  | cons i r ih =>
    intro st hst
    show Raws (foldOver (overN st i g) r g)
    exact ih _ (Raws_setN i hst (rawNode_congr (hg _).1 (hg _).2 (hst i)))

theorem Raws_unsub (ins : List Nat) (id : Nat) {st : St} (hst : Raws st) :
    Raws (unsub st ins id) :=
  Raws_foldOver (fun n => { n with readers := removeL n.readers id })
    (fun _ => ⟨rfl, rfl⟩) ins st hst

theorem Raws_resub (ins : List Nat) (id : Nat) {st : St} (hst : Raws st) :
    Raws (resub st ins id) :=
  Raws_foldOver (fun n => { n with readers := addL n.readers id })
    (fun _ => ⟨rfl, rfl⟩) ins st hst

theorem Raws_dirtyAll (rs : List Nat) {st : St} (hst : Raws st) :
    Raws (dirtyAll st rs) :=
  Raws_foldOver (fun n => { n with dirty := true })
    (fun _ => ⟨rfl, rfl⟩) rs st hst

theorem Raws_sameStepSt (id : Nat) (sources : List Nat) {st2 : St}
    (hst : Raws st2) : Raws (sameStepSt id sources st2) :=
  Raws_setN id hst (rawNode_congr rfl rfl (hst id))

/-- The setter preserves rawness when the written value is raw. -/
theorem raw_setValue (i : Nat) (t : W) (st : St) (hst : Raws st)
    (ht : isRaw t = true) : RawRU (setValue i t st) := by
  by_cases hg : st.globalState = true
  · simp only [setValue, hg, if_true]
    exact hst
  · rw [setValue, if_neg hg]
    split
    · exact hst
    · rename_i cur heq
      by_cases he : cur = t
      · rw [if_pos he]
        exact hst
      · rw [if_neg he]
        show Raws (dirtyAll _ _)
        refine Raws_dirtyAll _ (Raws_setN i hst ?_)
        exact ⟨(hst i).1, ht⟩

/-- The callback tail preserves rawness when the incoming value is
raw, and produces that raw value. -/
theorem raw_finishVal (id : Nat) (xv : W) (ins : List Nat) (st : St)
    (hst : Raws st) (hxv : isRaw xv = true) : RawR1 (finishVal id xv ins st) := by
  simp only [finishVal]
  by_cases he : xv = (getN st id).cached
  · rw [if_pos he]
    have hst2 : Raws (setN st id
        { getN st id with dirty := false, inputs := ins }) :=
      Raws_setN id hst (rawNode_congr rfl rfl (hst id))
    have hst3 : Raws (resub (setN st id
        { getN st id with dirty := false, inputs := ins }) ins id) :=
      Raws_resub ins id hst2
    exact ⟨by rw [cached_resub_setN]; exact he ▸ hxv, hst3⟩
  · rw [if_neg he]
    have hst1 : Raws (setN st id
        { getN st id with cached := xv, version := (getN st id).version + 1 }) :=
      Raws_setN id hst ⟨hxv, (hst id).2⟩
    have hst2 : Raws (setN (setN st id
        { getN st id with cached := xv, version := (getN st id).version + 1 }) id
        { getN (setN st id { getN st id with cached := xv, version := (getN st id).version + 1 }) id with dirty := false, inputs := ins }) :=
      Raws_setN id hst1 (rawNode_congr rfl rfl (hst1 id))
    have hst3 : Raws (resub (setN (setN st id
        { getN st id with cached := xv, version := (getN st id).version + 1 }) id
        { getN (setN st id { getN st id with cached := xv, version := (getN st id).version + 1 }) id with dirty := false, inputs := ins }) ins id) :=
      Raws_resub ins id hst2
    refine ⟨?_, hst3⟩
    rw [cached_resub_setN]
    show isRaw (getN (setN st id
        { getN st id with cached := xv, version := (getN st id).version + 1 }) id).cached
      = true
    rw [getN_setN_self]
    exact hxv

theorem raw_sameFinish (id : Nat) (st3 : St) (hst : Raws st3) :
    RawR1 (sameFinish id st3) := by
  simp only [sameFinish]
  have hst5 : Raws (resub (setN st3 id { getN st3 id with dirty := false })
      (getN (setN st3 id { getN st3 id with dirty := false }) id).inputs id) :=
    Raws_resub _ id (Raws_setN id hst (rawNode_congr rfl rfl (hst id)))
  exact ⟨(hst5 id).1, hst5⟩

/-- The raw invariant, by induction on fuel, simultaneously for the
four mutually recursive evaluator functions: starting from a state
whose inputs hold raw values, whose cached values are raw, and whose
compute bodies only write raw values, every operation preserves this
and every getter result is a raw value. -/
theorem raw_all : ∀ g : Nat,
    (∀ i st, Raws st → RawR1 (getValue g i st))
    ∧ (∀ l st, Raws st → RawRL (readSources g l st))
    ∧ (∀ a st, Raws st → RawAct a → RawRA (runAct g a st))
    ∧ (∀ i x b st, Raws st → RawR1 (unwrapFinish g i x b st)) := by
  intro g
  induction g with
  | zero => exact ⟨fun _ _ _ => trivial, fun _ _ _ => trivial,
      fun _ _ _ _ => trivial, fun _ _ _ _ _ => trivial⟩
  | succ g ih =>
    obtain ⟨ih1, ih2, ih3, ih4⟩ := ih
    refine ⟨?_, ?_, ?_, ?_⟩
    · -- getValue
      intro i st hst
      simp only [getValue]
      by_cases hg : st.globalState = true
      · rw [if_pos hg]
        exact hst
      · rw [if_neg hg]
        split
        · rename_i v heq
          refine ⟨?_, hst⟩
          have h2 := (hst i).2
          rw [heq] at h2
          exact h2
        · rename_i sources fn heq
          by_cases hd : (getN st i).dirty = false
          · rw [if_pos hd]
            exact ⟨(hst i).1, hst⟩
          · rw [if_neg hd]
            have hst1 : Raws (unsub st (getN st i).inputs i) :=
              Raws_unsub _ i hst
            have hrl := ih2 sources (unsub st (getN st i).inputs i) hst1
            split
            · rename_i e s heq2
              rw [heq2] at hrl
              exact hrl
            · exact trivial
            · rename_i values st2 heq2
              rw [heq2] at hrl
              split
              · split
                · exact raw_sameFinish i (sameStepSt i sources st2)
                    (Raws_sameStepSt i sources hrl)
                · rename_i ls hls
                  exact ih4 i (.sigRef ls) (getN (sameStepSt i sources st2) i).inputs
                    (sameStepSt i sources st2) (Raws_sameStepSt i sources hrl)
              · have hst3 : Raws (sameStepSt i sources st2) :=
                  Raws_sameStepSt i sources hrl
                have hst4 : Raws (setN
                    { sameStepSt i sources st2 with globalState := true } i
                    { getN (sameStepSt i sources st2) i with
                      compCount := (getN (sameStepSt i sources st2) i).compCount + 1 }) :=
                  Raws_setN i hst3 (rawNode_congr rfl rfl (hst3 i))
                have hact : RawAct (fn values) := by
                  have h2 := (hst i).2
                  rw [heq] at h2
                  exact h2 values
                have hra := ih3 (fn values) (setN
                    { sameStepSt i sources st2 with globalState := true } i
                    { getN (sameStepSt i sources st2) i with
                      compCount := (getN (sameStepSt i sources st2) i).compCount + 1 })
                  hst4 hact
                split
                · rename_i e s heq3
                  have heq4 : runAct g (fn values) (setN
                      { sameStepSt i sources st2 with globalState := true } i
                      { getN (sameStepSt i sources st2) i with
                        compCount := (getN (sameStepSt i sources st2) i).compCount + 1 })
                      = .thr e s := heq3
                  rw [heq4] at hra
                  exact hra
                · exact trivial
                · rename_i res st5 heq3
                  have heq4 : runAct g (fn values) (setN
                      { sameStepSt i sources st2 with globalState := true } i
                      { getN (sameStepSt i sources st2) i with
                        compCount := (getN (sameStepSt i sources st2) i).compCount + 1 })
                      = .ok res st5 := heq3
                  rw [heq4] at hra
                  exact ih4 i res
                    (sources.foldl (fun acc s => unionL acc (getN st2 s).inputs) [])
                    { st5 with globalState := false } hra
    · -- readSources
      intro l st hst
      cases l with
      | nil =>
        simp only [readSources]
        exact hst
      | cons s ss =>
        simp only [readSources]
        have h1 := ih1 s st hst
        split
        · rename_i e s2 heq
          rw [heq] at h1
          exact h1
        · exact trivial
        · rename_i v st2 heq
          rw [heq] at h1
          have h2 := ih2 ss st2 h1.2
          split
          · rename_i e s3 heq2
            rw [heq2] at h2
            exact h2
          · exact trivial
          · rename_i vs st3 heq2
            rw [heq2] at h2
            exact h2
    · -- runAct
      intro a st hst hact
      cases a with
      | ret w =>
        simp only [runAct]
        exact hst
      | get i k =>
        simp only [runAct]
        have h1 := ih1 i st hst
        split
        · rename_i e s heq
          rw [heq] at h1
          exact h1
        · exact trivial
        · rename_i w st2 heq
          rw [heq] at h1
          exact ih3 (k w) st2 h1.2 (hact w)
      | set i w rest =>
        simp only [runAct]
        obtain ⟨hw, hrest⟩ := hact
        have h1 := raw_setValue i w st hst hw
        split
        · rename_i e s heq
          rw [heq] at h1
          exact h1
        · rename_i st2 heq
          rw [heq] at h1
          exact ih3 rest st2 h1 hrest
      | fail =>
        simp only [runAct]
        exact hst
    · -- unwrapFinish
      intro i x b st hst
      cases x with
      | raw v =>
        simp only [unwrapFinish]
        exact raw_finishVal i (.raw v) b st hst rfl
      | sigRef s =>
        simp only [unwrapFinish]
        have hstA : Raws (setN st i { getN st i with lastSignal := some s }) :=
          Raws_setN i hst (rawNode_congr rfl rfl (hst i))
        have h1 := ih1 s (setN st i { getN st i with lastSignal := some s }) hstA
        split
        · rename_i e s2 heq
          have heq2 : getValue g s (setN st i
              { getN st i with lastSignal := some s }) = .thr e s2 := heq
          rw [heq2] at h1
          exact h1
        · exact trivial
        · rename_i xv st2 heq
          have heq2 : getValue g s (setN st i
              { getN st i with lastSignal := some s }) = .ok xv st2 := heq
          rw [heq2] at h1
          exact raw_finishVal i xv (unionL b (getN st2 s).inputs) st2 h1.2 h1.1

/-- The concrete construction state `c8bst` satisfies the raw
invariant: its inputs store raw values and its only compute body never
writes a signal into an input. -/
theorem raws_c8bst : Raws c8bst := by
  intro i
  by_cases h3 : i = 3
  · subst h3
    refine ⟨by decide, ?_⟩
    show ∀ vs, RawAct (pick2Fn vs)
    intro vs
    unfold pick2Fn
    by_cases hb : headW vs = .raw (.bool true)
    · rw [if_pos hb]
      exact trivial
    · rw [if_neg hb]
      exact trivial
  · by_cases h2 : i = 2
    · subst h2
      refine ⟨by decide, ?_⟩
      show isRaw (W.raw (V.bool false)) = true
      decide
    · by_cases h1 : i = 1
      · subst h1
        refine ⟨by decide, ?_⟩
        show isRaw (W.raw (V.num 2)) = true
        decide
      · by_cases h0 : i = 0
        · subst h0
          refine ⟨by decide, ?_⟩
          show isRaw (W.raw (V.num 1)) = true
          decide
        · have hdef : getN c8bst i = defNode := by
            simp [c8bst, mkRead, mkInput, emptySt, getN, h3, h2, h1, h0]
          rw [hdef]
          exact ⟨rfl, rfl⟩

/-- C8 amended: the auto-unwrap performs exactly one level.  In any
state whose inputs hold raw (non-signal) values, whose cached values
are raw and whose compute bodies write only raw values, every read
returns a raw value and preserves that invariant — so no cached value
is ever a signal.  Concretely, for `res = c.read(cv => cv ? a : b)`
over raw inputs, reading `res.value` reads through the returned signal
(recording it in `lastSignal`), merges its inputs into `res`'s inputs,
and caches the raw unwrapped value, dynamically rewiring when the
condition flips. -/
theorem C8_one_unwrap_raw :
    (∀ (g i : Nat) (st : St), Raws st → RawR1 (getValue g i st))
    ∧ (rdVal c8bst 3 = some (.raw (.num 2))
      ∧ (getN c8bA 3).inputs = [2, 1]
      ∧ (getN c8bA 3).lastSignal = some 1
      ∧ isRaw (getN c8bA 3).cached = true
      ∧ rdVal (wrSt c8bA 2 (.raw (.bool true))) 3 = some (.raw (.num 1))
      ∧ (getN c8bB 3).inputs = [2, 0]
      ∧ (getN c8bB 3).lastSignal = some 0
      ∧ isRaw (getN c8bB 3).cached = true) :=
  ⟨fun g i st hst => (raw_all g).1 i st hst, by decide⟩

/-- C8 witness: the raw-invariant theorem applied to the concrete
signal-returning-compute graph. -/
theorem C8_one_unwrap_raw_w : RawR1 (getValue 40 3 c8bst) :=
  C8_one_unwrap_raw.1 40 3 c8bst raws_c8bst

theorem dirty_sameStepSt (id : Nat) (sources : List Nat) (st2 : St) :
    (getN (sameStepSt id sources st2) id).dirty = (getN st2 id).dirty := by
  rw [getN_sameStepSt]

theorem dirty_newStep (id : Nat) (sources : List Nat) (st2 : St) :
    (getN (newStep id sources st2) id).dirty = (getN st2 id).dirty := by
  show (getN (setN { sameStepSt id sources st2 with globalState := true } id
      { getN (sameStepSt id sources st2) id with
        compCount := (getN (sameStepSt id sources st2) id).compCount + 1 }) id).dirty
    = (getN st2 id).dirty
  rw [getN_setN_self]
  show (getN (sameStepSt id sources st2) id).dirty = (getN st2 id).dirty
  rw [dirty_sameStepSt]

/-- The flag discipline of the callback tail: it never touches the
reentrancy flag. -/
theorem flag_finishVal (id : Nat) (xv : W) (ins : List Nat) (st : St)
    (h : st.globalState = false) : FlagR1 (finishVal id xv ins st) := by
  obtain ⟨st5, h1, -, -, -, -, hfl⟩ := finishVal_spec id xv ins st
  rw [h1]
  show st5.globalState = false
  rw [hfl]
  exact h

/-- The flag discipline of the SAME-verdict short-circuit. -/
theorem flag_sameFinish (id : Nat) (st3 : St) (h : st3.globalState = false) :
    FlagR1 (sameFinish id st3) := by
  obtain ⟨st5, h1, -, -, -, -, hfl⟩ := sameFinish_spec id st3
  rw [h1]
  show st5.globalState = false
  rw [hfl]
  exact h

/-- A compute body running under the `COMPUTING` flag can only: return
a value with the state untouched, hit the reentrancy guard (every
embedded get or set throws `NonReactiveAccess`, resetting the flag
before any mutation), throw the user error with the state untouched
(flag still `COMPUTING`), or run out of fuel.  In particular the
continuation after a get or set is unreachable. -/
theorem runAct_computing (f : Nat) (a : Act) (st : St)
    (hg : st.globalState = true) :
    (∃ w, runAct f a st = .ok w st)
    ∨ runAct f a st = .thr .nonReactive { st with globalState := false }
    ∨ runAct f a st = .thr .userErr st
    ∨ runAct f a st = .out := by
  cases f with
  | zero =>
    right; right; right
    rfl
  | succ f =>
    cases a with
    | ret w =>
      left
      exact ⟨w, rfl⟩
    | fail =>
      right; right; left
      rfl
    | get i k =>
      cases f with
      | zero =>
        right; right; right
        simp only [runAct, getValue]
      | succ f2 =>
        right; left
        simp only [runAct, getValue, hg, if_true]
    | set i w rest =>
      right; left
      simp only [runAct, setValue, hg, if_true]

theorem flagRL_to_R1 {e : Err} {s : St} (h : FlagRL (.thr e s)) :
    FlagR1 (.thr e s) := by
  cases e
  · exact h
  · exact h

theorem flagR1_to_RL {e : Err} {s : St} (h : FlagR1 (.thr e s)) :
    FlagRL (.thr e s) := by
  cases e
  · exact h
  · exact h

/-- The reentrancy-flag discipline, by induction on fuel: starting from
a `READY` state, every evaluator result that returns normally or
throws `NonReactiveAccess` ends `READY`, and every result that throws
the user error ends `COMPUTING` (the `globalState = READY` assignment
after `f(...values)` is skipped — `makeCt` has no `finally`). -/
theorem flag_all : ∀ g : Nat,
    (∀ i st, st.globalState = false → FlagR1 (getValue g i st))
    ∧ (∀ l st, st.globalState = false → FlagRL (readSources g l st))
    ∧ (∀ i x b st, st.globalState = false → FlagR1 (unwrapFinish g i x b st)) := by
  intro g
  induction g with
  | zero => exact ⟨fun _ _ _ => trivial, fun _ _ _ => trivial, fun _ _ _ _ _ => trivial⟩
  | succ g ih =>
    obtain ⟨ih1, ih2, ih4⟩ := ih
    refine ⟨?_, ?_, ?_⟩
    · intro i st hg
      simp only [getValue]
      rw [if_neg (by rw [hg]; exact Bool.false_ne_true)]
      split
      · exact hg
      · rename_i sources fn heq
        by_cases hd : (getN st i).dirty = false
        · rw [if_pos hd]
          exact hg
        · rw [if_neg hd]
          have hg1 : (unsub st (getN st i).inputs i).globalState = false := by
            show (foldOver _ _ _).globalState = false
            rw [globalState_foldOver]
            exact hg
          have hrl := ih2 sources (unsub st (getN st i).inputs i) hg1
          split
          · rename_i e s heq2
            rw [heq2] at hrl
            exact flagRL_to_R1 hrl
          · exact trivial
          · rename_i values st2 heq2
            rw [heq2] at hrl
            split
            · split
              · exact flag_sameFinish i (sameStepSt i sources st2) hrl
              · rename_i ls hls
                exact ih4 i (.sigRef ls) (getN (sameStepSt i sources st2) i).inputs
                  (sameStepSt i sources st2) hrl
            · rcases runAct_computing g (fn values)
                  (setN { sameStepSt i sources st2 with globalState := true } i
                    { getN (sameStepSt i sources st2) i with
                      compCount := (getN (sameStepSt i sources st2) i).compCount + 1 })
                  rfl with ⟨w, hw⟩ | hw | hw | hw
              · rw [hw]
                exact ih4 i w (sources.foldl (fun acc s => unionL acc (getN st2 s).inputs) [])
                  _ rfl
              · rw [hw]
                rfl
              · rw [hw]
                rfl
              · rw [hw]
                exact trivial
    · intro l st hg
      cases l with
      | nil =>
        simp only [readSources]
        exact hg
      | cons s ss =>
        simp only [readSources]
        have h1 := ih1 s st hg
        split
        · rename_i e s2 heq
          rw [heq] at h1
          exact flagR1_to_RL h1
        · exact trivial
        · rename_i v st2 heq
          rw [heq] at h1
          have h2 := ih2 ss st2 h1
          split
          · rename_i e s3 heq2
            rw [heq2] at h2
            exact h2
          · exact trivial
          · rename_i vs st3 heq2
            rw [heq2] at h2
            exact h2
    · intro i x b st hg
      cases x with
      | raw v =>
        simp only [unwrapFinish]
        exact flag_finishVal i (.raw v) b st hg
      | sigRef s =>
        simp only [unwrapFinish]
        have h1 := ih1 s (setN st i { getN st i with lastSignal := some s }) hg
        split
        · rename_i e s2 heq
          have heq2 : getValue g s (setN st i
              { getN st i with lastSignal := some s }) = .thr e s2 := heq
          rw [heq2] at h1
          exact h1
        · exact trivial
        · rename_i xv st2 heq
          have heq2 : getValue g s (setN st i
              { getN st i with lastSignal := some s }) = .ok xv st2 := heq
          rw [heq2] at h1
          exact flag_finishVal i xv (unionL b (getN st2 s).inputs) st2 h1

/-- C6 amended: error behavior of reads.  Universally, any read from a
`READY` state that escapes with the `NonReactiveAccess` error leaves
the reentrancy flag `READY`, and any read that escapes with a
user-compute exception leaves it `COMPUTING` (no `finally` around
`f(...values)`).  For a read of an arbitrary DIRTY derived node, the
theorem enumerates every error exit — the source-read phase throws,
the user compute throws on a NEW verdict, the auto-unwrap re-read of
`lastSignal` throws on a SAME verdict, and the unwrap read of a
signal-valued compute result throws — and each time the escaping error
carries the failing sub-phase's state unchanged: none of the steps
that mark the node clean run, so the node's DIRTY state is exactly
what the sub-phase left (in particular, a compute throw preserves the
node's dirty flag, with the flag left `COMPUTING` for the user error
and reset to `READY` for the guard error).  The two one-node scenarios
ground both error kinds in concrete runs. -/
theorem C6_error_paths_general (g id : Nat) (st : St) (sources : List Nat)
    (fn : List W → Act)
    (hg : ¬ st.globalState = true)
    (hk : (getN st id).kind = .der sources fn)
    (hd : ¬ (getN st id).dirty = false) :
    (∀ (f i : Nat) (s : St) (e : Err) (s2 : St), s.globalState = false →
        getValue f i s = .thr e s2 →
        (e = .nonReactive → s2.globalState = false)
        ∧ (e = .userErr → s2.globalState = true))
    ∧ (∀ e st2, readSources (g + 1) sources (unsub st (getN st id).inputs id)
          = .thr e st2 →
        getValue (g + 1 + 1) id st = .thr e st2)
    ∧ (∀ values st2 e st5,
        readSources (g + 1) sources (unsub st (getN st id).inputs id)
          = .ok values st2 →
        (updLR st2 sources (getN st2 id).lastRead true).2 = false →
        runAct (g + 1) (fn values) (newStep id sources st2) = .thr e st5 →
        getValue (g + 1 + 1) id st = .thr e st5
        ∧ (getN st5 id).dirty = (getN st2 id).dirty
        ∧ (e = .userErr → st5.globalState = true)
        ∧ (e = .nonReactive → st5.globalState = false))
    ∧ (∀ values st2 ls e stB,
        readSources (g + 1) sources (unsub st (getN st id).inputs id)
          = .ok values st2 →
        (updLR st2 sources (getN st2 id).lastRead true).2 = true →
        (getN st2 id).lastSignal = some ls →
        getValue g ls (sameStepLs id sources st2 ls) = .thr e stB →
        getValue (g + 1 + 1) id st = .thr e stB)
    ∧ (∀ values st2 s e stB st5,
        readSources (g + 1) sources (unsub st (getN st id).inputs id)
          = .ok values st2 →
        (updLR st2 sources (getN st2 id).lastRead true).2 = false →
        runAct (g + 1) (fn values) (newStep id sources st2) = .ok (.sigRef s) st5 →
        getValue g s (setN { st5 with globalState := false } id
            { getN { st5 with globalState := false } id with lastSignal := some s })
          = .thr e stB →
        getValue (g + 1 + 1) id st = .thr e stB)
    ∧ (errOf c6res = some .userErr
        ∧ (getN (stOf1 c6res) 1).dirty = true
        ∧ (stOf1 c6res).globalState = true
        ∧ errOf c5res = some .nonReactive
        ∧ (getN (stOf1 c5res) 1).dirty = true
        ∧ (stOf1 c5res).globalState = false) := by
  refine ⟨?_, ?_, ?_, ?_, ?_, by decide⟩
  · intro f i s e s2 hgs heq
    have h := (flag_all f).1 i s hgs
    rw [heq] at h
    cases e with
    | nonReactive => exact ⟨fun _ => h, fun hcon => absurd hcon (by decide)⟩
    | userErr => exact ⟨fun hcon => absurd hcon (by decide), fun _ => h⟩
  · intro e st2 hthr
    rw [getValue, if_neg hg]
    split
    · rename_i v heq
      rw [hk] at heq
      exact absurd heq (by simp)
    · rename_i s2 f2 heq
      rw [hk] at heq
      injection heq with e1 e2
      subst e1
      subst e2
      rw [if_neg hd]
      simp only [hthr]
  · intro values st2 e st5 hrs hfalse hrun
    have hval : getValue (g + 1 + 1) id st = .thr e st5 := by
      rw [getValue, if_neg hg]
      split
      · rename_i v heq
        rw [hk] at heq
        exact absurd heq (by simp)
      · rename_i s2 f2 heq
        rw [hk] at heq
        injection heq with e1 e2
        subst e1
        subst e2
        rw [if_neg hd]
        have hrun2 : runAct (g + 1) (fn values) (setN { sameStepSt id sources st2 with globalState := true } id { getN (sameStepSt id sources st2) id with compCount := (getN (sameStepSt id sources st2) id).compCount + 1 }) = .thr e st5 := hrun
        simp only [hrs, hfalse, Bool.false_eq_true, if_false, hrun2]
    have hfacts : (getN st5 id).dirty = (getN st2 id).dirty
        ∧ (e = .userErr → st5.globalState = true)
        ∧ (e = .nonReactive → st5.globalState = false) := by
      rcases runAct_computing (g + 1) (fn values) (newStep id sources st2) rfl
        with ⟨w, hw⟩ | hw | hw | hw
      · rw [hrun] at hw
        exact Res1.noConfusion hw
      · rw [hrun] at hw
        injection hw with he hst
        subst he
        subst hst
        refine ⟨?_, ?_, ?_⟩
        · exact dirty_newStep id sources st2
        · intro hcon
          exact absurd hcon (by decide)
        · intro _
          rfl
      · rw [hrun] at hw
        injection hw with he hst
        subst he
        subst hst
        refine ⟨dirty_newStep id sources st2, fun _ => rfl, ?_⟩
        intro hcon
        exact absurd hcon (by decide)
      · rw [hrun] at hw
        exact Res1.noConfusion hw
    exact ⟨hval, hfacts.1, hfacts.2.1, hfacts.2.2⟩
  · intro values st2 ls e stB hrs hsame hls hthr
    rw [getValue, if_neg hg]
    split
    · rename_i v heq
      rw [hk] at heq
      exact absurd heq (by simp)
    · rename_i s2 f2 heq
      rw [hk] at heq
      injection heq with e1 e2
      subst e1
      subst e2
      rw [if_neg hd]
      have hthr2 : getValue g ls (setN (sameStepSt id sources st2) id
          { getN (sameStepSt id sources st2) id with lastSignal := some ls })
          = .thr e stB := hthr
      simp only [hrs, hsame, lastSignal_sameStepSt, hls, if_true, eq_self_iff_true,
        unwrapFinish, hthr2]
  · intro values st2 s e stB st5 hrs hfalse hrunok hthr
    rw [getValue, if_neg hg]
    split
    · rename_i v heq
      rw [hk] at heq
      exact absurd heq (by simp)
    · rename_i s2 f2 heq
      rw [hk] at heq
      injection heq with e1 e2
      subst e1
      subst e2
      rw [if_neg hd]
      have hrun2 : runAct (g + 1) (fn values) (setN { sameStepSt id sources st2 with globalState := true } id { getN (sameStepSt id sources st2) id with compCount := (getN (sameStepSt id sources st2) id).compCount + 1 }) = .ok (.sigRef s) st5 := hrunok
      simp only [hrs, hfalse, Bool.false_eq_true, if_false, hrun2, unwrapFinish, hthr]

set_option maxHeartbeats 2000000 in
/-- C6 witness: the general error-path theorem applied to the concrete
user-throw scenario, whose compute throws on the first read of node 1:
the read escapes with the user error, the node stays DIRTY, and the
flag is left COMPUTING. -/
theorem C6_error_paths_general_w :
    getValue (38 + 1 + 1) 1 c6st = .thr .userErr (newStep 1 [0] c6st2)
    ∧ (getN (newStep 1 [0] c6st2) 1).dirty = (getN c6st2 1).dirty
    ∧ (Err.userErr = .userErr → (newStep 1 [0] c6st2).globalState = true)
    ∧ (Err.userErr = .nonReactive → (newStep 1 [0] c6st2).globalState = false) :=
  (C6_error_paths_general 38 1 c6st [0] throwFn (by decide) rfl (by decide)).2.2.1
    [.raw (.num 1)] c6st2 .userErr (newStep 1 [0] c6st2) rfl (by decide) rfl

end CS


